import Mathlib

/-!
Verification development for the interbank product-comparison scripts
(closed-end variant V1.3 and open-end variant V1.2).

The scripts are batch ETL pipelines over per-product NAV spreadsheets:
per file they extract a (date, unit-NAV) series (dropping malformed rows
and collapsing duplicate dates last-wins), merge the per-product series
into one date-indexed table (outer join on the sorted union of dates),
resample that table onto a daily calendar with pandas linear
interpolation, in variant 2 normalize non-reference products to the
reference group's first data date, filter a master lookup table by
registration code, and emit the sheets.

Dates are modelled as natural day numbers, NAV values as rationals,
a column as an association list of (date, value) pairs with strictly
increasing dates (only the non-null cells are stored), and a table as a
list of (product name, column) pairs.
-/

namespace ProductComparison

/-- A date-indexed series: only the non-null (date, value) cells, kept with
strictly increasing dates once produced by `extractSeries`. -/
abbrev Col := List (Nat × ℚ)

/-- Insert a date into a strictly-sorted duplicate-free list, keeping it
strictly sorted and duplicate-free. -/
def insertSortedD (x : Nat) : List Nat → List Nat
  | [] => [x]
  | y :: ys =>
    if x < y then x :: y :: ys
    else if x = y then y :: ys
    else y :: insertSortedD x ys

/-- Sorted duplicate-free version of a date list: the index produced by
pandas when sorting/unioning date indexes. -/
def sortedDedup (l : List Nat) : List Nat :=
  l.foldr insertSortedD []

/-- Cell access in a column: the value stored at date `d`, if any
(`df.at[d, col]`, null modelled as `none`). -/
def colLookup (col : Col) (d : Nat) : Option ℚ :=
  (col.find? (fun r => r.1 == d)).map (fun r => r.2)

/-- A raw spreadsheet row after `to_datetime` / `to_numeric` coercion:
either side is `none` when the original cell was missing or failed to
parse (NaT / NaN). -/
abbrev RawRow := Option Nat × Option ℚ

/-- Model of `dropna(subset=['date', prod])`: keep only the rows where both the date
and the value parsed. -/
def validRows (rows : List RawRow) : List (Nat × ℚ) :=
  rows.filterMap (fun r =>
    match r with
    | (some d, some v) => some (d, v)
    | _ => none)

/-- The value of the last row carrying date `d`, if any: what
`groupby('date').last()` keeps for the group of `d`. -/
def lastValAt (rows : List (Nat × ℚ)) (d : Nat) : Option ℚ :=
  ((rows.filter (fun r => r.1 == d)).getLast?).map (fun r => r.2)

/-- Model of `df.dropna(subset=['date', prod]).groupby('date').last()`: the series of
one product, indexed by its sorted distinct dates, duplicate dates
collapsed to the last-seen value. -/
def extractSeries (rows : List RawRow) : Col :=
  (sortedDedup ((validRows rows).map (fun r => r.1))).filterMap
    (fun d => (lastValAt (validRows rows) d).map (fun v => (d, v)))

/-- One source spreadsheet file: the product name extracted from the file
name, and the parsed historical-NAV rows (`none` when the file has no
usable historical sheet or lacks the date / unit-NAV columns). -/
structure XFile where
  prod : String
  hist : Option (List RawRow)
deriving DecidableEq

/-- The contribution of one file to `product_nav`: nothing when the
historical sheet is unusable, otherwise the extracted series keyed by the
product name. -/
def extractFile (f : XFile) : Option (String × Col) :=
  f.hist.map (fun rows => (f.prod, extractSeries rows))

/-- Python-dict insertion: overwrite in place when the key is present,
append otherwise. -/
def dictInsert (m : List (String × Col)) (k : String) (v : Col) : List (String × Col) :=
  if m.any (fun e => e.1 == k) then
    m.map (fun e => if e.1 == k then (k, v) else e)
  else m ++ [(k, v)]

/-- The `product_nav` dict built by the per-file loop: each usable file
stores its series under its product name, later files overwriting earlier
ones with the same name. -/
def buildNav (files : List XFile) : List (String × Col) :=
  files.foldl (fun m f =>
    match extractFile f with
    | some kv => dictInsert m kv.1 kv.2
    | none => m) []

/-- Dict lookup in `product_nav` / column selection in the merged table. -/
def navLookup (m : List (String × Col)) (k : String) : Option Col :=
  (m.find? (fun e => e.1 == k)).map (fun e => e.2)

/-- All dates appearing in any series of the batch. -/
def allDates (cols : List (String × Col)) : List Nat :=
  cols.flatMap (fun c => c.2.map (fun r => r.1))

/-- The index of `pd.concat(product_nav.values(), axis=1).sort_index()`:
the sorted duplicate-free union of all series' dates. -/
def mergedIndex (cols : List (String × Col)) : List Nat :=
  sortedDedup (allDates cols)

/-- Minimum of a date list (`index.min()`), 0 on the empty list (the
pipeline only takes it on a non-empty index). -/
def listMin : List Nat → Nat
  | [] => 0
  | x :: xs => xs.foldl Nat.min x

/-- Maximum of a date list (`index.max()`), 0 on the empty list. -/
def listMax : List Nat → Nat
  | [] => 0
  | x :: xs => xs.foldl Nat.max x

/-- Model of `pd.date_range(lo, hi, freq='D')`: every calendar day from `lo` to `hi`
inclusive. -/
def fullIdx (lo hi : Nat) : List Nat :=
  (List.range (hi + 1 - lo)).map (fun i => lo + i)

/-- One cell of `reindex(full_idx).interpolate(method='linear')` for a
column whose known cells are `col`.  pandas' default limit direction is
forward: a known cell keeps its value; a gap with known values on both
sides is linearly interpolated (positional interpolation coincides with
date interpolation on a daily index); a gap after the last known value is
filled with that last value; a gap before the first known value stays
null. -/
def interpCell (col : Col) (d : Nat) : Option ℚ :=
  match colLookup col d with
  | some v => some v
  | none =>
    match (col.filter (fun r => r.1 < d)).getLast?, (col.filter (fun r => d < r.1)).head? with
    | some p, some q =>
      some (p.2 + (q.2 - p.2) * (((d : ℚ) - (p.1 : ℚ)) / ((q.1 : ℚ) - (p.1 : ℚ))))
    | some p, none => some p.2
    | none, _ => none

/-- One column of the calendar-resampled table over `full_idx`. -/
def resampleCol (col : Col) (lo hi : Nat) : List (Nat × Option ℚ) :=
  (fullIdx lo hi).map (fun d => (d, interpCell col d))

/-- Whether `pat` occurs as a contiguous infix of `s` (character lists). -/
def containsChars (pat : List Char) : List Char → Bool
  | [] => pat.isEmpty
  | c :: cs => pat.isPrefixOf (c :: cs) || containsChars pat cs

/-- Test of `'法巴' in c`: membership in the reference ("法巴") product family,
decided by substring search on the column name. -/
def isFab (name : String) : Bool :=
  containsChars "法巴".toList name.toList

/-- Suffix appended to a product name to name its normalized column. -/
def normSuffix : String := "（统一基准）"

/-- All dates at which some reference-group column has a (non-null) value:
the index of `df_raw[fab_cols].dropna(how='all')` before taking the min. -/
def fabDates (cols : List (String × Col)) : List Nat :=
  (cols.filter (fun c => isFab c.1)).flatMap (fun c => c.2.map (fun r => r.1))

/-- Model of `start = df_raw[fab_cols].dropna(how='all').index.min()`: the earliest
date at which any reference-group column has a value; `none` models `NaT`
(no reference column, or all their cells null). -/
def baselineDate (cols : List (String × Col)) : Option Nat :=
  (sortedDedup (fabDates cols)).head?

/-- Model of `df_raw[col] / df_raw.at[start, col]`: pointwise division of a column
by its baseline value. -/
def normalizeCol (col : Col) (b : ℚ) : Col :=
  col.map (fun r => (r.1, r.2 / b))

/-- The normalized columns created by the variant-2 loop: for each
non-reference column, when `start` is a real date of the merged index and
the column's cell at `start` is non-null, a column named
`col + '（统一基准）'` holding the pointwise ratio to that cell. -/
def normCols (cols : List (String × Col)) : List (String × Col) :=
  match baselineDate cols with
  | none => []
  | some s =>
    cols.filterMap (fun c =>
      if isFab c.1 then none
      else if (mergedIndex cols).contains s then
        match colLookup c.2 s with
        | some b => some (c.1 ++ normSuffix, normalizeCol c.2 b)
        | none => none
      else none)

/-- The reordered `df_norm` column list: each raw column followed
immediately by its normalized column when one was created. -/
def dfNormCols (cols : List (String × Col)) : List (String × Col) :=
  cols.flatMap (fun c =>
    match (normCols cols).find? (fun n => n.1 == c.1 ++ normSuffix) with
    | some n => [c, n]
    | none => [c])

/-- The row index of the `统一基准作图` sheet:
`df_plot_norm[df_plot_norm.index >= start]` applied to the daily calendar;
with `start = NaT` the comparison is everywhere false and the index is
empty. -/
def dfPlotNormIdx (cols : List (String × Col)) : List Nat :=
  match baselineDate cols with
  | some s =>
    (fullIdx (listMin (mergedIndex cols)) (listMax (mergedIndex cols))).filter
      (fun d => s ≤ d)
  | none => []

/-- A cell of the master lookup table: Excel cells are strings or numbers,
and the scripts compare them after `astype(str)`. -/
inductive Cell where
  | str : String → Cell
  | num : Int → Cell
deriving DecidableEq

/-- Coercion `astype(str)` on one cell. -/
def pyStr : Cell → String
  | .str s => s
  | .num n => toString n

/-- One row of the master lookup table: its registration code cell plus
the remaining payload cells. -/
structure QRow where
  code : Cell
  fields : List Cell
deriving DecidableEq

/-- Model of `df_query[df_query['登记编码'].astype(str).isin(codes_in_folder)]`:
keep exactly the rows whose string-coerced code is a collected code. -/
def filterInfo (query : List QRow) (codes : List String) : List QRow :=
  query.filter (fun r => codes.contains (pyStr r.code))

/-- The preferred column order for the variant-2 product-info sheet. -/
def desiredInfoCols : List String :=
  ["理财产品名称", "最早实际成立日期", "最早实际结束日期", "投资周期（天）",
   "业绩比较基准（%）", "最新销售费(%)", "最新固定管理费(%)",
   "折合人民币计算日期存续规模",
   "近1个月年化收益率(%)", "近3个月年化收益率(%)", "成立以来年化收益率(%)",
   "近1个月最大回撤(%)", "近3个月最大回撤(%)", "成立以来最大回撤(%)"]

/-- Variant-2 column reordering of the product-info sheet: the preferred
columns present, in preferred order, then the not-yet-taken columns in
their original order (`df_info[cols1 + cols2]`). -/
def infoColsOrder (desired present : List String) : List String :=
  (desired.filter (fun c => present.contains c)) ++
    (present.filter (fun c => !(desired.filter (fun x => present.contains x)).contains c))

/-- The product-info sheet: absent when the lookup table was not loaded or
no registration code was collected (`if df_query is not None and
codes_in_folder`). -/
def mkInfo (query : Option (List QRow)) (codes : List String) : Option (List QRow) :=
  match query with
  | none => none
  | some q => if codes.isEmpty then none else some (filterInfo q codes)

/-- The sheets of one variant-2 output workbook that the claims are about:
the raw merged table and its index, the reordered normalized table, the
calendar-resampled raw columns with the calendar index, and the row index
of the normalized chart sheet. -/
structure BatchOutput where
  dfRaw : List (String × Col)
  rawIndex : List Nat
  dfNorm : List (String × Col)
  plotRaw : List (String × List (Nat × Option ℚ))
  plotRawIndex : List Nat
  plotNormIndex : List Nat
deriving DecidableEq

/-- Assemble the output workbook of one batch from its `product_nav`. -/
def mkOutput (nav : List (String × Col)) : BatchOutput :=
  { dfRaw := nav
    rawIndex := mergedIndex nav
    dfNorm := dfNormCols nav
    plotRaw := nav.map (fun c =>
      (c.1, resampleCol c.2 (listMin (mergedIndex nav)) (listMax (mergedIndex nav))))
    plotRawIndex := fullIdx (listMin (mergedIndex nav)) (listMax (mergedIndex nav))
    plotNormIndex := dfPlotNormIdx nav }

/-- Process one batch folder: build `product_nav` from its files and, when
it is non-empty, produce the output workbook; an empty `product_nav` is
skipped and produces no file. -/
def processBatch (files : List XFile) : Option BatchOutput :=
  if (buildNav files).isEmpty then none else some (mkOutput (buildNav files))

/-- The outer loop over batch folders: every batch is processed,
independently, whether or not earlier batches produced output. -/
def processAll (batches : List (List XFile)) : List (Option BatchOutput) :=
  batches.map processBatch

/-! ### Helper lemmas on sorted duplicate-free date lists -/

theorem mem_insertSortedD {x a : Nat} :
    ∀ {l : List Nat}, a ∈ insertSortedD x l ↔ a = x ∨ a ∈ l := by
  intro l
  induction l with
  | nil => simp [insertSortedD]
  | cons y ys ih =>
    by_cases h1 : x < y
    · simp [insertSortedD, h1]
    · by_cases h2 : x = y
      · subst h2
        simp [insertSortedD, h1]
      · simp only [insertSortedD, if_neg h1, if_neg h2, List.mem_cons, ih]
        tauto

theorem sorted_insertSortedD {x : Nat} :
    ∀ {l : List Nat}, l.Pairwise (· < ·) → (insertSortedD x l).Pairwise (· < ·) := by
  intro l
  induction l with
  | nil => intro _; simp [insertSortedD]
  | cons y ys ih =>
    intro hs
    rw [List.pairwise_cons] at hs
    by_cases h1 : x < y
    · rw [insertSortedD, if_pos h1, List.pairwise_cons]
      refine ⟨?_, List.pairwise_cons.mpr hs⟩
      intro a ha
      rcases List.mem_cons.mp ha with rfl | ha
      · exact h1
      · exact lt_trans h1 (hs.1 a ha)
    · by_cases h2 : x = y
      · subst h2
        rw [insertSortedD, if_neg h1, if_pos rfl]
        exact List.pairwise_cons.mpr hs
      · rw [insertSortedD, if_neg h1, if_neg h2, List.pairwise_cons]
        refine ⟨?_, ih hs.2⟩
        intro a ha
        rcases mem_insertSortedD.mp ha with rfl | ha
        · omega
        · exact hs.1 a ha

theorem sorted_sortedDedup : ∀ {l : List Nat}, (sortedDedup l).Pairwise (· < ·) := by
  intro l
  induction l with
  | nil => simp [sortedDedup]
  | cons x xs ih => exact sorted_insertSortedD ih

theorem mem_sortedDedup {a : Nat} :
    ∀ {l : List Nat}, a ∈ sortedDedup l ↔ a ∈ l := by
  intro l
  induction l with
  | nil => simp [sortedDedup]
  | cons x xs ih =>
    show a ∈ insertSortedD x (sortedDedup xs) ↔ _
    rw [mem_insertSortedD, ih, List.mem_cons]

theorem nodup_sortedDedup {l : List Nat} : (sortedDedup l).Nodup :=
  (@sorted_sortedDedup l).imp (fun h => Nat.ne_of_lt h)

/-- The head of a `<`-sorted list is a lower bound of it. -/
theorem head?_sorted_le {l : List Nat} {x : Nat}
    (hs : l.Pairwise (· < ·)) (hx : l.head? = some x) :
    ∀ y ∈ l, x ≤ y := by
  cases l with
  | nil => cases hx
  | cons a t =>
    cases hx
    intro y hy
    rcases List.mem_cons.mp hy with rfl | hy
    · exact le_refl y
    · exact le_of_lt ((List.pairwise_cons.mp hs).1 y hy)

theorem mem_fullIdx {lo hi d : Nat} :
    d ∈ fullIdx lo hi ↔ lo ≤ d ∧ d ≤ hi := by
  simp only [fullIdx, List.mem_map, List.mem_range]
  constructor
  · rintro ⟨i, hi', rfl⟩
    omega
  · rintro ⟨h1, h2⟩
    exact ⟨d - lo, by omega, by omega⟩

theorem sorted_fullIdx {lo hi : Nat} : (fullIdx lo hi).Pairwise (· < ·) := by
  refine List.Pairwise.map (fun i => lo + i) ?_ (List.pairwise_lt_range _)
  intro a b hab
  show lo + a < lo + b
  omega

theorem nodup_fullIdx {lo hi : Nat} : (fullIdx lo hi).Nodup :=
  (@sorted_fullIdx lo hi).imp (fun h => Nat.ne_of_lt h)

/-! ### Helper lemmas on columns and lookups -/

theorem colLookup_eq_none_iff {col : Col} {d : Nat} :
    colLookup col d = none ↔ ∀ r ∈ col, r.1 ≠ d := by
  simp only [colLookup, Option.map_eq_none', List.find?_eq_none, beq_iff_eq]

theorem colLookup_map_val {col : Col} {g : ℚ → ℚ} {d : Nat} :
    colLookup (col.map (fun r => (r.1, g r.2))) d = (colLookup col d).map g := by
  induction col with
  | nil => rfl
  | cons a t ih =>
    by_cases h : a.1 = d
    · simp [colLookup, List.find?_cons, h]
    · have h1 : ((a.1, g a.2).1 == d) = false := by simpa using h
      have h2 : (a.1 == d) = false := by simpa using h
      simp only [colLookup, List.map_cons, List.find?_cons, h1, h2] at *
      exact ih

/-- In a key-sorted list, the last element's key bounds every key. -/
theorem getLast?_key_le {l : List (Nat × ℚ)} {x : Nat × ℚ}
    (hs : l.Pairwise (fun a b => a.1 < b.1)) (hx : l.getLast? = some x) :
    ∀ e ∈ l, e.1 ≤ x.1 := by
  induction l with
  | nil => cases hx
  | cons a t ih =>
    rw [List.pairwise_cons] at hs
    cases t with
    | nil =>
      simp only [List.getLast?_singleton, Option.some.injEq] at hx
      subst hx
      intro e he
      simp only [List.mem_singleton] at he
      subst he
      exact le_refl _
    | cons b t2 =>
      rw [List.getLast?_cons_cons] at hx
      intro e he
      rcases List.mem_cons.mp he with rfl | he2
      · have hb := ih hs.2 hx b (List.mem_cons_self b t2)
        have hab := hs.1 b (List.mem_cons_self b t2)
        omega
      · exact ih hs.2 hx e he2

/-- A member of a key-sorted list whose key bounds every key is the last
element. -/
theorem getLast?_of_key_max {l : List (Nat × ℚ)} {x : Nat × ℚ}
    (hs : l.Pairwise (fun a b => a.1 < b.1)) (hx : x ∈ l)
    (hmax : ∀ e ∈ l, e.1 ≤ x.1) : l.getLast? = some x := by
  induction l with
  | nil => cases hx
  | cons a t ih =>
    rw [List.pairwise_cons] at hs
    cases t with
    | nil =>
      simp only [List.mem_singleton] at hx
      subst hx
      rfl
    | cons b t2 =>
      rw [List.getLast?_cons_cons]
      rcases List.mem_cons.mp hx with rfl | hx2
      · exfalso
        have h1 := hmax b (List.mem_cons_of_mem _ (List.mem_cons_self b t2))
        have h2 := hs.1 b (List.mem_cons_self b t2)
        omega
      · exact ih hs.2 hx2 (fun e he => hmax e (List.mem_cons_of_mem a he))

/-- A member of a key-sorted list whose key is below every key is the
head. -/
theorem head?_of_key_min {l : List (Nat × ℚ)} {x : Nat × ℚ}
    (hs : l.Pairwise (fun a b => a.1 < b.1)) (hx : x ∈ l)
    (hmin : ∀ e ∈ l, x.1 ≤ e.1) : l.head? = some x := by
  cases l with
  | nil => cases hx
  | cons a t =>
    rcases List.mem_cons.mp hx with rfl | hx2
    · rfl
    · exfalso
      have h1 := (List.pairwise_cons.mp hs).1 x hx2
      have h2 := hmin a (List.mem_cons_self a t)
      omega

/-- A `filterMap` with a key-preserving function keeps key-sortedness. -/
theorem pairwise_keys_filterMap {l : List Nat} {f : Nat → Option (Nat × ℚ)}
    (hf : ∀ d r, f d = some r → r.1 = d) (h : l.Pairwise (· < ·)) :
    (l.filterMap f).Pairwise (fun a b => a.1 < b.1) := by
  induction l with
  | nil => simp
  | cons a t ih =>
    rw [List.pairwise_cons] at h
    rw [List.filterMap_cons]
    cases hfa : f a with
    | none => exact ih h.2
    | some r =>
      rw [List.pairwise_cons]
      refine ⟨?_, ih h.2⟩
      intro e he
      rcases List.mem_filterMap.mp he with ⟨d, hd, hfd⟩
      rw [hf a r hfa, hf d e hfd]
      exact h.1 d hd

/-- Evaluation of `find?` by key over a `filterMap` whose function is key-preserving. -/
theorem find?_filterMap_keyed {l : List Nat} {f : Nat → Option (Nat × ℚ)}
    (hf : ∀ d r, f d = some r → r.1 = d) (d : Nat) :
    (l.filterMap f).find? (fun r => r.1 == d) = if d ∈ l then f d else none := by
  induction l with
  | nil => simp
  | cons a t ih =>
    rw [List.filterMap_cons]
    cases hfa : f a with
    | none =>
      rw [ih]
      by_cases had : d = a
      · subst had
        simp [hfa]
      · simp [List.mem_cons, had]
    | some r =>
      have hr := hf a r hfa
      rw [List.find?_cons]
      by_cases had : d = a
      · subst had
        have : (r.1 == d) = true := by simp [hr]
        rw [this]
        simp [hfa, hr]
      · have hb : (r.1 == d) = false := by
          rw [hr]
          simpa using fun h => had h.symm
        rw [hb, ih]
        simp [List.mem_cons, had]

/-! ### Lemmas about series extraction -/

theorem extractSeries_keyed {rows : List RawRow} :
    ∀ d r, (lastValAt (validRows rows) d).map (fun v => (d, v)) = some r → r.1 = d := by
  intro d r h
  rcases Option.map_eq_some'.mp h with ⟨v, _, rfl⟩
  rfl

theorem extractSeries_sorted {rows : List RawRow} :
    (extractSeries rows).Pairwise (fun a b => a.1 < b.1) :=
  pairwise_keys_filterMap extractSeries_keyed sorted_sortedDedup

theorem colLookup_extractSeries {rows : List RawRow} {d : Nat} :
    colLookup (extractSeries rows) d = lastValAt (validRows rows) d := by
  unfold colLookup extractSeries
  rw [find?_filterMap_keyed extractSeries_keyed d]
  by_cases hd : d ∈ (validRows rows).map (fun r => r.1)
  · rw [if_pos (mem_sortedDedup.mpr hd)]
    cases h : lastValAt (validRows rows) d <;> simp [h]
  · rw [if_neg (fun hmem => hd (mem_sortedDedup.mp hmem))]
    have hnil : (validRows rows).filter (fun r => r.1 == d) = [] := by
      rw [List.filter_eq_nil_iff]
      intro r hr
      simp only [beq_iff_eq]
      intro he
      exact hd (List.mem_map.mpr ⟨r, hr, he⟩)
    simp [lastValAt, hnil]

/-! ### Lemmas about the product_nav dict -/

theorem navLookup_cons {e : String × Col} {t : List (String × Col)} {k : String} :
    navLookup (e :: t) k = if e.1 = k then some e.2 else navLookup t k := by
  by_cases h : e.1 = k <;> simp [navLookup, List.find?_cons, h]

theorem navLookup_mapOverwrite {t : List (String × Col)} {k : String} {v : Col}
    {k' : String} :
    navLookup (t.map (fun e => if e.1 == k then (k, v) else e)) k' =
      if k' = k then (if t.any (fun e => e.1 == k) then some v else none)
      else navLookup t k' := by
  simp only [beq_iff_eq]
  induction t with
  | nil =>
    by_cases hkk : k' = k <;> simp [navLookup, hkk]
  | cons e t ih =>
    rw [List.map_cons]
    by_cases hek : e.1 = k
    · by_cases hkk : k' = k
      · subst hkk
        simp [navLookup_cons, List.any_cons, hek]
      · have hne : ¬ (k : String) = k' := fun h => hkk h.symm
        simp [navLookup_cons, List.any_cons, hek, hkk, hne, ih,
          fun h : e.1 = k' => hkk (hek ▸ h).symm]
    · by_cases h2 : e.1 = k'
      · have hkk : ¬ k' = k := fun h => hek (h ▸ h2)
        simp [navLookup_cons, List.any_cons, hek, h2, hkk]
      · rw [show (if e.1 = k then (k, v) else e) = e from if_neg hek,
          navLookup_cons, if_neg h2, ih]
        by_cases hkk : k' = k
        · rw [if_pos hkk, if_pos hkk, List.any_cons]
          have hbe : (e.1 == k) = false := by simpa using hek
          rw [hbe, Bool.false_or]
        · rw [if_neg hkk, if_neg hkk, navLookup_cons, if_neg h2]

theorem navLookup_appendNew {m : List (String × Col)} {k : String} {v : Col}
    {k' : String} (hnot : ∀ e ∈ m, e.1 ≠ k) :
    navLookup (m ++ [(k, v)]) k' = if k' = k then some v else navLookup m k' := by
  induction m with
  | nil =>
    rw [List.nil_append, navLookup_cons]
    by_cases hkk : k' = k
    · simp [hkk]
    · simp only [navLookup, List.find?_nil, Option.map_none', if_neg hkk]
      rw [if_neg (fun h : (k, v).1 = k' => hkk h.symm)]
  | cons e t ih =>
    rw [List.cons_append, navLookup_cons, navLookup_cons]
    by_cases h2 : e.1 = k'
    · by_cases hkk : k' = k
      · exact absurd (hkk ▸ h2) (hnot e (List.mem_cons_self e t))
      · rw [if_pos h2, if_neg hkk, if_pos h2]
    · rw [if_neg h2, if_neg h2,
        ih (fun x hx => hnot x (List.mem_cons_of_mem e hx))]

theorem navLookup_dictInsert {m : List (String × Col)} {k : String} {v : Col}
    {k' : String} :
    navLookup (dictInsert m k v) k' = if k' = k then some v else navLookup m k' := by
  unfold dictInsert
  by_cases hany : m.any (fun e => e.1 == k)
  · rw [if_pos hany, navLookup_mapOverwrite, if_pos hany]
  · rw [if_neg hany]
    refine navLookup_appendNew ?_
    intro e he hk
    exact hany (List.any_eq_true.mpr ⟨e, he, by simpa using hk⟩)

theorem buildNav_concat {files : List XFile} {f : XFile} :
    buildNav (files ++ [f]) =
      match extractFile f with
      | some kv => dictInsert (buildNav files) kv.1 kv.2
      | none => buildNav files := by
  unfold buildNav
  rw [List.foldl_append]
  rfl

theorem buildNav_concat_none {files : List XFile} {f : XFile}
    (hef : extractFile f = none) : buildNav (files ++ [f]) = buildNav files := by
  rw [buildNav_concat, hef]

theorem buildNav_concat_some {files : List XFile} {f : XFile} {kv : String × Col}
    (hef : extractFile f = some kv) :
    buildNav (files ++ [f]) = dictInsert (buildNav files) kv.1 kv.2 := by
  rw [buildNav_concat, hef]

theorem mem_dictInsert {m : List (String × Col)} {k : String} {v : Col}
    {x : String × Col} (hx : x ∈ dictInsert m k v) : x ∈ m ∨ x = (k, v) := by
  unfold dictInsert at hx
  by_cases hany : m.any (fun e => e.1 == k)
  · rw [if_pos hany] at hx
    rcases List.mem_map.mp hx with ⟨e, he, rfl⟩
    by_cases hek : e.1 = k
    · right
      simp [hek]
    · left
      simpa [hek] using he
  · rw [if_neg hany] at hx
    rcases List.mem_append.mp hx with h | h
    · exact Or.inl h
    · exact Or.inr (by simpa using h)

theorem keys_dictInsert {m : List (String × Col)} {k : String} {v : Col} :
    (dictInsert m k v).map (fun e => e.1) =
      if m.any (fun e => e.1 == k) then m.map (fun e => e.1)
      else m.map (fun e => e.1) ++ [k] := by
  unfold dictInsert
  by_cases hany : m.any (fun e => e.1 == k)
  · rw [if_pos hany, if_pos hany, List.map_map]
    refine List.map_congr_left ?_
    intro e _
    by_cases hek : e.1 = k
    · simp [Function.comp, hek]
    · simp [Function.comp, hek]
  · rw [if_neg hany, if_neg hany, List.map_append]
    rfl

theorem keys_nodup_dictInsert {m : List (String × Col)} {k : String} {v : Col}
    (h : (m.map (fun e => e.1)).Nodup) :
    ((dictInsert m k v).map (fun e => e.1)).Nodup := by
  rw [keys_dictInsert]
  by_cases hany : m.any (fun e => e.1 == k)
  · rwa [if_pos hany]
  · rw [if_neg hany]
    have hk : k ∉ m.map (fun e => e.1) := by
      intro hmem
      rcases List.mem_map.mp hmem with ⟨e, he, hek⟩
      exact hany (List.any_eq_true.mpr ⟨e, he, by simpa using hek⟩)
    simp [List.nodup_append, h, hk]

theorem buildNav_keys_nodup (files : List XFile) :
    ((buildNav files).map (fun e => e.1)).Nodup := by
  suffices h : ∀ acc : List (String × Col), (acc.map (fun e => e.1)).Nodup →
      ((files.foldl (fun m f =>
        match extractFile f with
        | some kv => dictInsert m kv.1 kv.2
        | none => m) acc).map (fun e => e.1)).Nodup by
    exact h [] (by simp)
  induction files with
  | nil =>
    intro acc hacc
    exact hacc
  | cons f fs ih =>
    intro acc hacc
    rw [List.foldl_cons]
    cases hef : extractFile f with
    | none =>
      simp only [hef]
      exact ih acc hacc
    | some kv =>
      simp only [hef]
      exact ih _ (keys_nodup_dictInsert hacc)

theorem buildNav_mem_extractSeries {files : List XFile} {x : String × Col}
    (hx : x ∈ buildNav files) : ∃ rows, x.2 = extractSeries rows := by
  suffices h : ∀ acc : List (String × Col),
      (∀ y ∈ acc, ∃ rows, (y : String × Col).2 = extractSeries rows) →
      ∀ y ∈ files.foldl (fun m f =>
        match extractFile f with
        | some kv => dictInsert m kv.1 kv.2
        | none => m) acc, ∃ rows, y.2 = extractSeries rows by
    exact h [] (by simp) x hx
  clear hx
  induction files with
  | nil =>
    intro acc hacc
    exact hacc
  | cons f fs ih =>
    intro acc hacc
    rw [List.foldl_cons]
    cases hef : extractFile f with
    | none =>
      simp only [hef]
      exact ih acc hacc
    | some kv =>
      simp only [hef]
      refine ih _ ?_
      intro y hy
      rcases mem_dictInsert hy with h | hkv
      · exact hacc y h
      · rcases Option.map_eq_some'.mp hef with ⟨rows, _, hrows⟩
        refine ⟨rows, ?_⟩
        rw [hkv, ← hrows]

theorem buildNav_col_sorted {files : List XFile} {p : String} {c : Col}
    (h : (p, c) ∈ buildNav files) : c.Pairwise (fun a b => a.1 < b.1) := by
  rcases buildNav_mem_extractSeries h with ⟨rows, hc⟩
  rw [show c = extractSeries rows from hc]
  exact extractSeries_sorted

theorem navKeys_unique {m : List (String × Col)} {p : String} {c1 c2 : Col}
    (hnd : (m.map (fun e => e.1)).Nodup) (h1 : (p, c1) ∈ m) (h2 : (p, c2) ∈ m) :
    c1 = c2 := by
  induction m with
  | nil => cases h1
  | cons e t ih =>
    rw [List.map_cons, List.nodup_cons] at hnd
    rcases List.mem_cons.mp h1 with rfl | h1t
    · rcases List.mem_cons.mp h2 with he | h2t
      · injection he with _ h2c
        exact h2c.symm
      · exact absurd (List.mem_map.mpr ⟨(p, c2), h2t, rfl⟩) hnd.1
    · rcases List.mem_cons.mp h2 with rfl | h2t
      · exact absurd (List.mem_map.mpr ⟨(p, c1), h1t, rfl⟩) hnd.1
      · exact ih hnd.2 h1t h2t

/-! ### Lemmas about the baseline date -/

theorem baselineDate_mem_fabDates {cols : List (String × Col)} {s : Nat}
    (h : baselineDate cols = some s) : s ∈ fabDates cols := by
  unfold baselineDate at h
  refine mem_sortedDedup.mp ?_
  cases hl : sortedDedup (fabDates cols) with
  | nil =>
    rw [hl] at h
    cases h
  | cons a t =>
    rw [hl] at h
    cases h
    exact List.mem_cons_self _ _

theorem baselineDate_min {cols : List (String × Col)} {s : Nat}
    (h : baselineDate cols = some s) : ∀ d ∈ fabDates cols, s ≤ d := by
  unfold baselineDate at h
  intro d hd
  exact head?_sorted_le sorted_sortedDedup h d (mem_sortedDedup.mpr hd)

theorem fabDates_sub_allDates {cols : List (String × Col)} {d : Nat}
    (h : d ∈ fabDates cols) : d ∈ allDates cols := by
  unfold fabDates at h
  unfold allDates
  rcases List.mem_flatMap.mp h with ⟨c, hc, hd⟩
  exact List.mem_flatMap.mpr ⟨c, (List.mem_filter.mp hc).1, hd⟩

theorem baselineDate_mem_merged {cols : List (String × Col)} {s : Nat}
    (h : baselineDate cols = some s) : s ∈ mergedIndex cols :=
  mem_sortedDedup.mpr (fabDates_sub_allDates (baselineDate_mem_fabDates h))

theorem mem_of_getLast?_eq {l : List (Nat × ℚ)} {x : Nat × ℚ}
    (h : l.getLast? = some x) : x ∈ l := by
  cases l with
  | nil => cases h
  | cons a t => exact List.mem_of_mem_getLast? (by simp [h])

theorem string_append_cancel {a b c : String} (h : a ++ c = b ++ c) : a = b := by
  have hd := congrArg String.data h
  rw [String.data_append, String.data_append] at hd
  exact String.ext (List.append_cancel_right hd)

/-! ### Behaviour of one interpolated cell -/

/-- Cells strictly before a column's first known date stay null (pandas'
forward limit direction leaves leading gaps unfilled). -/
theorem interp_leading {col : Col} {d : Nat}
    (h : ∀ e ∈ col, d < e.1) : interpCell col d = none := by
  have hlook : colLookup col d = none :=
    colLookup_eq_none_iff.mpr (fun r hr => by have := h r hr; omega)
  have hfil : col.filter (fun r => r.1 < d) = [] := by
    rw [List.filter_eq_nil_iff]
    intro r hr
    have := h r hr
    simp
    omega
  simp [interpCell, hlook, hfil]

/-- Cells strictly after a column's last known date are filled with the
last known value (pandas pads forward past the last valid entry). -/
theorem interp_trailing {col : Col} {dl : Nat} {vl : ℚ} {d : Nat}
    (hs : col.Pairwise (fun a b => a.1 < b.1))
    (hlast : col.getLast? = some (dl, vl)) (hd : dl < d) :
    interpCell col d = some vl := by
  have hmax := getLast?_key_le hs hlast
  have hlook : colLookup col d = none :=
    colLookup_eq_none_iff.mpr (fun r hr => by have := hmax r hr; omega)
  have hup : col.filter (fun r => d < r.1) = [] := by
    rw [List.filter_eq_nil_iff]
    intro r hr
    have := hmax r hr
    simp
    omega
  have hlow : (col.filter (fun r => r.1 < d)).getLast? = some (dl, vl) := by
    refine getLast?_of_key_max (hs.filter _) ?_ ?_
    · refine List.mem_filter.mpr ⟨mem_of_getLast?_eq hlast, ?_⟩
      simp
      omega
    · intro e he
      exact hmax e (List.mem_filter.mp he).1
  simp [interpCell, hlook, hlow, hup]

/-- An interior gap is linearly interpolated between the nearest earlier
and nearest later known values. -/
theorem interp_interior {col : Col}
    (hs : col.Pairwise (fun a b => a.1 < b.1))
    {d d0 d1 : Nat} {v0 v1 : ℚ}
    (h0 : (d0, v0) ∈ col) (h1 : (d1, v1) ∈ col)
    (hlt0 : d0 < d) (hlt1 : d < d1)
    (hgap : ∀ e ∈ col, e.1 ≠ d)
    (hnear0 : ∀ e ∈ col, e.1 < d → e.1 ≤ d0)
    (hnear1 : ∀ e ∈ col, d < e.1 → d1 ≤ e.1) :
    interpCell col d =
      some (v0 + (v1 - v0) * (((d : ℚ) - (d0 : ℚ)) / ((d1 : ℚ) - (d0 : ℚ)))) := by
  have hlook := colLookup_eq_none_iff.mpr hgap
  have hlow : (col.filter (fun r => r.1 < d)).getLast? = some (d0, v0) := by
    refine getLast?_of_key_max (hs.filter _) ?_ ?_
    · refine List.mem_filter.mpr ⟨h0, ?_⟩
      simp
      omega
    · intro e he
      rcases List.mem_filter.mp he with ⟨he1, he2⟩
      exact hnear0 e he1 (by simpa using he2)
  have hup : (col.filter (fun r => d < r.1)).head? = some (d1, v1) := by
    refine head?_of_key_min (hs.filter _) ?_ ?_
    · refine List.mem_filter.mpr ⟨h1, ?_⟩
      simp
      omega
    · intro e he
      rcases List.mem_filter.mp he with ⟨he1, he2⟩
      exact hnear1 e he1 (by simpa using he2)
  simp [interpCell, hlook, hlow, hup]

/-! ### Concrete example batches used by witnesses and counterexamples -/

/-- The batch of §8's scenario: a reference product covering days 0–4 and a
competitor covering days 0–2 only. -/
def exFilesA : List XFile :=
  [⟨"法巴农银A", some [(some 0, some 1), (some 1, some (101/100)),
      (some 2, some (102/100)), (some 3, some (103/100)), (some 4, some (105/100))]⟩,
   ⟨"CompetitorX", some [(some 0, some 100), (some 1, some 101), (some 2, some 102)]⟩]

/-! ### Claim theorems -/

/-- C5: for every batch, the merged table's date index is the sorted
duplicate-free union of all dates appearing in that batch's series, the
table has one column per product name, and a cell is null exactly where
the product has no entry for that date. -/
theorem c5_merged_index_union (files : List XFile) :
    (mergedIndex (buildNav files)).Pairwise (· < ·) ∧
    (mergedIndex (buildNav files)).Nodup ∧
    (∀ d, d ∈ mergedIndex (buildNav files) ↔
      ∃ c ∈ buildNav files, d ∈ c.2.map (fun r => r.1)) ∧
    ((buildNav files).map (fun e => e.1)).Nodup ∧
    (∀ c ∈ buildNav files, ∀ d,
      colLookup c.2 d = none ↔ d ∉ c.2.map (fun r => r.1)) := by
  refine ⟨sorted_sortedDedup, nodup_sortedDedup, ?_, buildNav_keys_nodup files, ?_⟩
  · intro d
    show d ∈ sortedDedup (allDates (buildNav files)) ↔ _
    rw [mem_sortedDedup]
    simp [allDates, List.mem_flatMap]
  · intro c _ d
    rw [colLookup_eq_none_iff]
    constructor
    · intro h hmem
      rcases List.mem_map.mp hmem with ⟨r, hr, hrd⟩
      exact h r hr hrd
    · intro h r hr hrd
      exact h (List.mem_map.mpr ⟨r, hr, hrd⟩)

/-- C5 witness: concrete instance of the membership characterization and
the null-cell characterization on the scenario batch. -/
theorem c5_merged_index_union_witness :
    (3 ∈ mergedIndex (buildNav exFilesA) ↔
      ∃ c ∈ buildNav exFilesA, 3 ∈ c.2.map (fun r => r.1)) ∧
    (colLookup (extractSeries [(some 0, some 100), (some 1, some 101),
        (some 2, some 102)]) 4 = none ↔
      4 ∉ (extractSeries [(some 0, some 100), (some 1, some 101),
        (some 2, some 102)]).map (fun r => r.1)) :=
  ⟨(c5_merged_index_union exFilesA).2.2.1 3,
   (c5_merged_index_union exFilesA).2.2.2.2
     ("CompetitorX", extractSeries [(some 0, some 100), (some 1, some 101),
        (some 2, some 102)]) (by decide) 4⟩

/-- C6: when a source file's series contains the same date more than once,
the value kept for that date in the product's extracted series is the
later-seen value. -/
theorem c6_duplicate_dates_last_wins (rows : List RawRow)
    (pre post : List (Nat × ℚ)) (d : Nat) (v : ℚ)
    (hsplit : validRows rows = pre ++ (d, v) :: post)
    (hpost : ∀ r ∈ post, r.1 ≠ d) :
    colLookup (extractSeries rows) d = some v := by
  rw [colLookup_extractSeries]
  unfold lastValAt
  rw [hsplit, List.filter_append]
  have hd : ((d, v).1 == d) = true := by simp
  have hpost' : post.filter (fun r => r.1 == d) = [] := by
    rw [List.filter_eq_nil_iff]
    intro r hr
    simpa using hpost r hr
  simp only [List.filter_cons, hd, if_true, hpost']
  simp

/-- C6 witness: a duplicated date 5 keeps the later value 2. -/
theorem c6_duplicate_dates_last_wins_witness :
    colLookup (extractSeries [(some 5, some 1), (some 5, some 2)]) 5 = some 2 :=
  c6_duplicate_dates_last_wins [(some 5, some 1), (some 5, some 2)]
    [(5, 1)] [] 5 2 (by decide) (by intro r hr; cases hr)

/-- C9: when several files yield the same extracted product name, the
merged table's column for that name is exactly the series of the last such
file — the earlier files' series are silently replaced, never merged. -/
theorem c9_same_name_later_file_wins (files : List XFile) (k : String) :
    navLookup (buildNav files) k =
      (((files.filterMap extractFile).filter (fun e => e.1 == k)).getLast?).map
        (fun e => e.2) := by
  induction files using List.reverseRecOn with
  | nil => rfl
  | append_singleton fs f ih =>
    rw [List.filterMap_append]
    cases hef : extractFile f with
    | none =>
      have hf1 : List.filterMap extractFile [f] = [] := by
        simp [hef]
      rw [buildNav_concat_none hef, hf1, List.append_nil]
      exact ih
    | some kv =>
      have hf1 : List.filterMap extractFile [f] = [kv] := by
        simp [hef]
      rw [buildNav_concat_some hef, hf1, navLookup_dictInsert, List.filter_append]
      by_cases hkk : kv.1 = k
      · have hb : (kv.1 == k) = true := by simpa using hkk
        simp only [List.filter_cons, List.filter_nil, hb, if_true]
        rw [if_pos hkk.symm]
        simp
      · have hb : (kv.1 == k) = false := by simpa using hkk
        simp only [List.filter_cons, List.filter_nil, hb, Bool.false_eq_true,
          if_false, List.append_nil]
        rw [if_neg (fun h => hkk h.symm)]
        exact ih

/-- C8: a batch from which zero usable NAV series were extracted produces
no output workbook, and the remaining batches are still processed. -/
theorem c8_empty_batch_skipped (files : List XFile) (rest : List (List XFile))
    (h : ∀ f ∈ files, f.hist = none) :
    processBatch files = none ∧
    processAll (files :: rest) = none :: processAll rest := by
  have key : ∀ fl : List XFile, (∀ f ∈ fl, f.hist = none) → buildNav fl = [] := by
    intro fl
    induction fl with
    | nil =>
      intro _
      rfl
    | cons f fs ih =>
      intro hh
      have hf : extractFile f = none := by
        unfold extractFile
        rw [hh f (List.mem_cons_self f fs), Option.map_none']
      show List.foldl _ _ (f :: fs) = []
      rw [List.foldl_cons]
      simp only [hf]
      exact ih (fun g hg => hh g (List.mem_cons_of_mem f hg))
  have h1 : processBatch files = none := by
    unfold processBatch
    rw [key files h]
    rfl
  refine ⟨h1, ?_⟩
  unfold processAll
  rw [List.map_cons, h1]

/-- C8 witness: a batch whose single file has no usable history yields no
output, and the following (scenario) batch is still processed. -/
theorem c8_empty_batch_skipped_witness :
    processBatch [⟨"乙", none⟩] = none ∧
    processAll ([⟨"乙", none⟩] :: [exFilesA]) =
      none :: processAll [exFilesA] :=
  c8_empty_batch_skipped [⟨"乙", none⟩] [exFilesA] (by decide)

theorem contains_congr {l1 l2 : List String} {a : String} (h : a ∈ l1 ↔ a ∈ l2) :
    l1.contains a = l2.contains a := by
  simp only [List.elem_eq_mem, decide_eq_decide]
  exact h

/-- C7: with a loaded lookup table and a non-empty collected code set, the
product-info sheet is produced and contains exactly the lookup rows whose
string-coerced registration code is a collected code; and the variant-2
column order is the present preferred columns in preferred order followed
by all remaining columns in original order. -/
theorem c7_info_filter_and_order (q : List QRow) (codes : List String)
    (present : List String) (hc : codes ≠ []) :
    mkInfo (some q) codes = some (filterInfo q codes) ∧
    (∀ r, r ∈ filterInfo q codes ↔ r ∈ q ∧ pyStr r.code ∈ codes) ∧
    infoColsOrder desiredInfoCols present =
      desiredInfoCols.filter (fun c => present.contains c) ++
        present.filter (fun c => !desiredInfoCols.contains c) := by
  refine ⟨?_, ?_, ?_⟩
  · show (if codes.isEmpty = true then none else some (filterInfo q codes)) = _
    rw [if_neg (by simpa using hc)]
  · intro r
    unfold filterInfo
    rw [List.mem_filter]
    simp
  · unfold infoColsOrder
    congr 1
    refine List.filter_congr ?_
    intro c hcp
    have hiff : c ∈ desiredInfoCols.filter (fun x => present.contains x) ↔
        c ∈ desiredInfoCols := by
      rw [List.mem_filter]
      constructor
      · exact fun h => h.1
      · intro h
        refine ⟨h, ?_⟩
        simp only [List.elem_eq_mem, decide_eq_true_eq]
        exact hcp
    rw [contains_congr hiff]

/-- C7 witness: concrete lookup table with a string code and a numeric
code, filtered by a two-element code set. -/
theorem c7_info_filter_and_order_witness :
    mkInfo (some [⟨Cell.str "C001", [Cell.str "甲"]⟩, ⟨Cell.num 7, []⟩,
        ⟨Cell.str "C002", []⟩]) ["C001", "7"] =
      some (filterInfo [⟨Cell.str "C001", [Cell.str "甲"]⟩, ⟨Cell.num 7, []⟩,
        ⟨Cell.str "C002", []⟩] ["C001", "7"]) ∧
    (QRow.mk (Cell.num 7) [] ∈ filterInfo [⟨Cell.str "C001", [Cell.str "甲"]⟩,
        ⟨Cell.num 7, []⟩, ⟨Cell.str "C002", []⟩] ["C001", "7"] ↔
      QRow.mk (Cell.num 7) [] ∈ [⟨Cell.str "C001", [Cell.str "甲"]⟩,
        ⟨Cell.num 7, []⟩, ⟨Cell.str "C002", []⟩] ∧
      pyStr (Cell.num 7) ∈ ["C001", "7"]) :=
  ⟨(c7_info_filter_and_order [⟨Cell.str "C001", [Cell.str "甲"]⟩, ⟨Cell.num 7, []⟩,
      ⟨Cell.str "C002", []⟩] ["C001", "7"] ["X", "理财产品名称"] (by decide)).1,
   (c7_info_filter_and_order [⟨Cell.str "C001", [Cell.str "甲"]⟩, ⟨Cell.num 7, []⟩,
      ⟨Cell.str "C002", []⟩] ["C001", "7"] ["X", "理财产品名称"] (by decide)).2.1
      (QRow.mk (Cell.num 7) [])⟩

/-- C1 (amended): for every column of the batch, calendar cells before the
column's first known value remain null; but calendar cells after the
column's last known value are filled with the last known value instead of
remaining null. -/
theorem c1_leading_null_trailing_padded (files : List XFile) (p : String)
    (col : Col) (hmem : (p, col) ∈ buildNav files) :
    (∀ d, (∀ e ∈ col, d < e.1) → interpCell col d = none) ∧
    (∀ d dl vl, col.getLast? = some (dl, vl) → dl < d →
      interpCell col d = some vl) :=
  ⟨fun _ h => interp_leading h,
   fun _ _ _ hl hd => interp_trailing (buildNav_col_sorted hmem) hl hd⟩

/-- C1 witness: in the scenario batch, CompetitorX's resampled cell two
days past its last known date carries the padded value 102. -/
theorem c1_leading_null_trailing_padded_witness :
    interpCell (extractSeries [(some 0, some 100), (some 1, some 101),
      (some 2, some 102)]) 4 = some 102 :=
  (c1_leading_null_trailing_padded exFilesA "CompetitorX"
    (extractSeries [(some 0, some 100), (some 1, some 101), (some 2, some 102)])
    (by decide)).2 4 2 102 (by decide) (by decide)

/-- C1 counterexample: the batch calendar runs through day 4 and
CompetitorX's last known value is on day 2, yet the resampled chart cell
for CompetitorX on day 3 holds 102 — it does not remain null, so
interpolation does extrapolate (pad) past the column's last known value. -/
theorem c1_trailing_not_null_counterexample :
    (mkOutput (buildNav exFilesA)).plotRawIndex = [0, 1, 2, 3, 4] ∧
    ((mkOutput (buildNav exFilesA)).plotRaw.find?
        (fun c => c.1 == "CompetitorX")).map
      (fun c => c.2.find? (fun r => r.1 == 3)) =
      some (some (3, some 102)) := by
  decide

/-- The batch used by the C4 witness: both columns have an interior
calendar gap. -/
def exFilesB : List XFile :=
  [⟨"法巴农银B", some [(some 0, some 1), (some 4, some 3)]⟩,
   ⟨"丙", some [(some 0, some 2), (some 3, some 8)]⟩]

/-- C4: the calendar-resampled table has exactly one row per calendar day
between the merged table's minimum and maximum dates inclusive, and an
interior gap cell equals the linear interpolation between the column's
nearest earlier and nearest later known values. -/
theorem c4_calendar_and_interior_interpolation (files : List XFile)
    (p : String) (col : Col) (hmem : (p, col) ∈ buildNav files)
    (d d0 d1 : Nat) (v0 v1 : ℚ)
    (h0 : (d0, v0) ∈ col) (h1 : (d1, v1) ∈ col)
    (hlt0 : d0 < d) (hlt1 : d < d1)
    (hgap : ∀ e ∈ col, e.1 ≠ d)
    (hnear0 : ∀ e ∈ col, e.1 < d → e.1 ≤ d0)
    (hnear1 : ∀ e ∈ col, d < e.1 → d1 ≤ e.1) :
    (∀ dd, dd ∈ (mkOutput (buildNav files)).plotRawIndex ↔
      listMin (mergedIndex (buildNav files)) ≤ dd ∧
      dd ≤ listMax (mergedIndex (buildNav files))) ∧
    (mkOutput (buildNav files)).plotRawIndex.Nodup ∧
    interpCell col d =
      some (v0 + (v1 - v0) * (((d : ℚ) - (d0 : ℚ)) / ((d1 : ℚ) - (d0 : ℚ)))) := by
  refine ⟨?_, nodup_fullIdx,
    interp_interior (buildNav_col_sorted hmem) h0 h1 hlt0 hlt1 hgap hnear0 hnear1⟩
  intro dd
  exact mem_fullIdx

/-- C4 witness: in the gap batch, column 丙 at day 1 interpolates between
(0, 2) and (3, 8), and day 2 lies in the calendar index. -/
theorem c4_calendar_and_interior_interpolation_witness :
    interpCell (extractSeries [(some 0, some 2), (some 3, some 8)]) 1 =
      some (2 + (8 - 2) * (((1 : ℚ) - (0 : ℚ)) / ((3 : ℚ) - (0 : ℚ)))) ∧
    (2 ∈ (mkOutput (buildNav exFilesB)).plotRawIndex ↔
      listMin (mergedIndex (buildNav exFilesB)) ≤ 2 ∧
      2 ≤ listMax (mergedIndex (buildNav exFilesB))) :=
  ⟨(c4_calendar_and_interior_interpolation exFilesB "丙"
      (extractSeries [(some 0, some 2), (some 3, some 8)]) (by decide)
      1 0 3 2 8 (by decide) (by decide) (by decide) (by decide)
      (by decide) (by decide) (by decide)).2.2,
   (c4_calendar_and_interior_interpolation exFilesB "丙"
      (extractSeries [(some 0, some 2), (some 3, some 8)]) (by decide)
      1 0 3 2 8 (by decide) (by decide) (by decide) (by decide)
      (by decide) (by decide) (by decide)).1 2⟩

/-- The batch used by the C10 witness: the reference product starts on day
2, later than the competitor. -/
def exFilesC : List XFile :=
  [⟨"法巴农银C", some [(some 2, some 1), (some 4, some 2)]⟩,
   ⟨"丁", some [(some 0, some 2), (some 4, some 3)]⟩]

/-- C10: in variant 2, the normalized chart sheet keeps exactly the
calendar rows on or after the baseline date, while the raw chart sheet
keeps the full calendar range. -/
theorem c10_norm_sheet_starts_at_baseline (files : List XFile)
    (out : BatchOutput) (s : Nat)
    (hout : processBatch files = some out)
    (hs : baselineDate (buildNav files) = some s) :
    (∀ d, d ∈ out.plotNormIndex ↔ d ∈ out.plotRawIndex ∧ s ≤ d) ∧
    (∀ d, d ∈ out.plotRawIndex ↔
      listMin (mergedIndex (buildNav files)) ≤ d ∧
      d ≤ listMax (mergedIndex (buildNav files))) := by
  have hout' : out = mkOutput (buildNav files) := by
    unfold processBatch at hout
    by_cases h : (buildNav files).isEmpty
    · rw [if_pos h] at hout
      cases hout
    · rw [if_neg h] at hout
      injection hout with h'
      exact h'.symm
  subst hout'
  refine ⟨?_, fun d => mem_fullIdx⟩
  intro d
  show d ∈ dfPlotNormIdx (buildNav files) ↔ d ∈ fullIdx _ _ ∧ s ≤ d
  unfold dfPlotNormIdx
  rw [hs]
  rw [List.mem_filter]
  simp only [decide_eq_true_eq]

/-- C10 witness: with baseline day 2, day 1 is in the raw calendar but the
normalized sheet keeps it iff it is on or after the baseline. -/
theorem c10_norm_sheet_starts_at_baseline_witness :
    (1 ∈ (mkOutput (buildNav exFilesC)).plotNormIndex ↔
      1 ∈ (mkOutput (buildNav exFilesC)).plotRawIndex ∧ 2 ≤ 1) ∧
    (1 ∈ (mkOutput (buildNav exFilesC)).plotRawIndex ↔
      listMin (mergedIndex (buildNav exFilesC)) ≤ 1 ∧
      1 ≤ listMax (mergedIndex (buildNav exFilesC))) :=
  ⟨(c10_norm_sheet_starts_at_baseline exFilesC (mkOutput (buildNav exFilesC)) 2
      (by rfl) (by decide)).1 1,
   (c10_norm_sheet_starts_at_baseline exFilesC (mkOutput (buildNav exFilesC)) 2
      (by rfl) (by decide)).2 1⟩

/-! ### Lemmas about the normalized columns -/

theorem colLookup_normalizeCol {col : Col} {b : ℚ} {d : Nat} :
    colLookup (normalizeCol col b) d = (colLookup col d).map (fun x => x / b) := by
  induction col with
  | nil => rfl
  | cons a t ih =>
    by_cases h : a.1 = d
    · simp [colLookup, normalizeCol, List.find?_cons, h]
    · have h1 : ((a.1, a.2 / b).1 == d) = false := by simpa using h
      have h2 : (a.1 == d) = false := by simpa using h
      simp only [colLookup, normalizeCol, List.map_cons, List.find?_cons, h1, h2] at *
      exact ih

theorem normCols_entry {cols : List (String × Col)} {p : String} {cp : Col}
    {s : Nat} {b : ℚ}
    (hmem : (p, cp) ∈ cols) (hfab : isFab p = false)
    (hs : baselineDate cols = some s) (hb : colLookup cp s = some b) :
    (p ++ normSuffix, normalizeCol cp b) ∈ normCols cols := by
  have hcont : ((mergedIndex cols).contains s) = true := by
    simp only [List.elem_eq_mem, decide_eq_true_eq]
    exact baselineDate_mem_merged hs
  have hstep : (if isFab p = true then none
      else if (mergedIndex cols).contains s = true then
        match colLookup cp s with
        | some b0 => some (p ++ normSuffix, normalizeCol cp b0)
        | none => none
      else (none : Option (String × Col))) =
      some (p ++ normSuffix, normalizeCol cp b) := by
    rw [if_neg (by simp [hfab]), if_pos hcont, hb]
  unfold normCols
  rw [hs]
  exact List.mem_filterMap.mpr ⟨(p, cp), hmem, hstep⟩

/-- C2 (amended): a non-reference product receives a normalized column
exactly when the baseline date exists and the product's raw cell at the
baseline date is non-null.  A zero baseline value still yields a
normalized column — the code only tests `pd.notna`, not zero. -/
theorem c2_norm_column_presence (files : List XFile) (p : String) (cp : Col)
    (hmem : (p, cp) ∈ buildNav files) (hfab : isFab p = false) :
    ((normCols (buildNav files)).find?
        (fun c => c.1 == p ++ normSuffix)).isSome = true ↔
    (∃ s, baselineDate (buildNav files) = some s ∧
      (colLookup cp s).isSome = true) := by
  constructor
  · intro hfind
    rcases List.find?_isSome.mp hfind with ⟨x, hx, hpred⟩
    cases hbd : baselineDate (buildNav files) with
    | none =>
      exfalso
      unfold normCols at hx
      rw [hbd] at hx
      cases hx
    | some s =>
      unfold normCols at hx
      rw [hbd] at hx
      rcases List.mem_filterMap.mp hx with ⟨c, hc, hfc⟩
      by_cases hf : isFab c.1 = true
      · rw [if_pos hf] at hfc
        cases hfc
      · rw [if_neg hf] at hfc
        by_cases hcont : ((mergedIndex (buildNav files)).contains s) = true
        · rw [if_pos hcont] at hfc
          cases hlk : colLookup c.2 s with
          | none =>
            rw [hlk] at hfc
            cases hfc
          | some b =>
            rw [hlk] at hfc
            injection hfc with hpair
            have hname : c.1 ++ normSuffix = p ++ normSuffix := by
              have hx1 : x.1 = c.1 ++ normSuffix := by
                rw [← hpair]
              rw [← hx1]
              simpa using hpred
            have hcp1 : c.1 = p := string_append_cancel hname
            have hc' : (p, c.2) ∈ buildNav files := by
              rw [← hcp1]
              simpa using hc
            have hc2 : c.2 = cp :=
              navKeys_unique (buildNav_keys_nodup files) hc' hmem
            refine ⟨s, rfl, ?_⟩
            rw [← hc2, hlk]
            rfl
        · rw [if_neg hcont] at hfc
          cases hfc
  · rintro ⟨s, hs, hlk⟩
    rcases Option.isSome_iff_exists.mp hlk with ⟨b, hb⟩
    refine List.find?_isSome.mpr
      ⟨(p ++ normSuffix, normalizeCol cp b), normCols_entry hmem hfab hs hb, ?_⟩
    simp

/-- C2 witness: in the gap batch, 丙 has value 2 at the baseline date 0 and
therefore receives a normalized column. -/
theorem c2_norm_column_presence_witness :
    ((normCols (buildNav exFilesB)).find?
        (fun c => c.1 == "丙" ++ normSuffix)).isSome = true :=
  (c2_norm_column_presence exFilesB "丙"
    (extractSeries [(some 0, some 2), (some 3, some 8)])
    (by decide) (by decide)).mpr ⟨0, by decide, by decide⟩

/-- The batch used by the C2 counterexample: the competitor's raw value at
the baseline date is zero. -/
def exFilesZero : List XFile :=
  [⟨"法巴农银D", some [(some 0, some 1), (some 3, some 2)]⟩,
   ⟨"戊", some [(some 0, some 0), (some 3, some 3)]⟩]

/-- C2 counterexample: the raw value of 戊 at the baseline date is zero
(not null), yet a normalized column for 戊 is still created, contradicting
the claim that a zero baseline value receives no normalized column. -/
theorem c2_zero_baseline_counterexample :
    baselineDate (buildNav exFilesZero) = some 0 ∧
    colLookup (extractSeries [(some 0, some 0), (some 3, some 3)]) 0 = some 0 ∧
    ((normCols (buildNav exFilesZero)).find?
        (fun c => c.1 == "戊" ++ normSuffix)).isSome = true := by
  decide

/-- C3: a non-reference product that receives a normalized column satisfies
normalized[d] = raw[d] / raw[baseline] at every date where the raw value is
defined, and the baseline date is the earliest date at which any
reference-group column has a non-null value. -/
theorem c3_normalized_ratio_to_baseline (files : List XFile) (p : String)
    (cp : Col) (s : Nat) (b : ℚ) (d : Nat) (v : ℚ)
    (hmem : (p, cp) ∈ buildNav files) (hfab : isFab p = false)
    (hs : baselineDate (buildNav files) = some s)
    (hb : colLookup cp s = some b) (hv : colLookup cp d = some v) :
    (p ++ normSuffix, normalizeCol cp b) ∈ normCols (buildNav files) ∧
    colLookup (normalizeCol cp b) d = some (v / b) ∧
    s ∈ fabDates (buildNav files) ∧
    (∀ e ∈ fabDates (buildNav files), s ≤ e) := by
  refine ⟨normCols_entry hmem hfab hs hb, ?_, baselineDate_mem_fabDates hs,
    baselineDate_min hs⟩
  rw [colLookup_normalizeCol, hv, Option.map_some']

/-- C3 witness: 丙's normalized column at day 3 equals 8 / 2, with baseline
day 0 (where the reference product starts). -/
theorem c3_normalized_ratio_to_baseline_witness :
    colLookup (normalizeCol
      (extractSeries [(some 0, some 2), (some 3, some 8)]) 2) 3 =
      some (8 / 2) :=
  (c3_normalized_ratio_to_baseline exFilesB "丙"
    (extractSeries [(some 0, some 2), (some 3, some 8)]) 0 2 3 8
    (by decide) (by decide) (by decide) (by decide) (by decide)).2.1

end ProductComparison
